import Mathlib

/-!
Verification of the manifest version resolver in `src/modules/package.rs`.

The resolver probes a fixed, ordered list of package-manifest files in a base
directory, extracts a raw version string with a format-specific extractor, and
normalizes it with `format_version`.  This file gives a shallow embedding of
the resolver: strings are `List Char` (with `String` wrappers matching the
source signatures), the filesystem collaborator `utils::read_file` is a
function from candidate file name to `Option` of the file's text, and the
external parse libraries (`toml`, `serde_json`) and the two compiled regexes
are modelled by executable Lean functions on character lists.
-/

namespace Package

/-- The double-quote character `"`. -/
def dq : Char := Char.ofNat 34

/-- The single-quote character. -/
def sq : Char := Char.ofNat 39

/-- Unicode `White_Space`, the class trimmed by Rust's `str::trim`
(via `char::is_whitespace`). -/
def isRustWhitespace (c : Char) : Bool :=
  let n := c.toNat
  (9 ≤ n && n ≤ 13) || n == 32 || n == 133 || n == 160 || n == 0x1680 ||
  (0x2000 ≤ n && n ≤ 0x200A) || n == 0x2028 || n == 0x2029 || n == 0x202F ||
  n == 0x205F || n == 0x3000

/-- Drop leading Rust whitespace. -/
def trimLeft (l : List Char) : List Char := l.dropWhile isRustWhitespace

/-- Drop trailing Rust whitespace. -/
def trimRight (l : List Char) : List Char :=
  (l.reverse.dropWhile isRustWhitespace).reverse

/-- Rust `str::trim` on a character list. -/
def trimChars (l : List Char) : List Char := trimRight (trimLeft l)

/-- The local `cleaned` binding of `format_version`:
`version.replace('"', "").trim().to_string()`. -/
def cleanedOf (s : List Char) : List Char := trimChars (s.filter (fun c => c != dq))

/-- The `format_version` on character lists, from the source: compute `cleaned`,
then return it unchanged when it starts with `v` and with `v` prepended
otherwise. -/
def formatVersionL (s : List Char) : List Char :=
  if (cleanedOf s).head? = some 'v' then cleanedOf s else 'v' :: cleanedOf s

/-- The `format_version` from the source, at `String` type. -/
def format_version (s : String) : String := ⟨formatVersionL s.data⟩

/-- Spec-side stage 1: remove every double-quote character. -/
def removeQuotes (l : List Char) : List Char := l.filter (fun c => c != dq)

/-- Spec-side stage 3: prepend `v` unless the list already starts with `v`. -/
def ensureV (l : List Char) : List Char :=
  if l.head? = some 'v' then l else 'v' :: l

/-! Auxiliary lemmas about `dropWhile` and trimming. -/

theorem headNotOfDropWhileEqSelf {p : Char → Bool} {b : Char} {l : List Char}
    (h : (b :: l).dropWhile p = b :: l) : p b = false := by
  by_cases hb : p b
  · exfalso
    rw [List.dropWhile_cons, if_pos hb] at h
    have hlen : (l.dropWhile p).length ≤ l.length :=
      (List.dropWhile_suffix p).sublist.length_le
    have := congrArg List.length h
    simp at this
    omega
  · simpa using hb

theorem dropWhileIdem (p : Char → Bool) (l : List Char) :
    (l.dropWhile p).dropWhile p = l.dropWhile p := by
  induction l with
  | nil => rfl
  | cons a l ih =>
    by_cases h : p a
    · rw [List.dropWhile_cons, if_pos h, ih]
    · rw [List.dropWhile_cons, if_neg h, List.dropWhile_cons, if_neg h]

theorem dropWhileEqSelfAppend (p : Char → Bool) (l t : List Char)
    (hl : l.dropWhile p = l) (hne : l ≠ []) :
    (l ++ t).dropWhile p = l ++ t := by
  cases l with
  | nil => exact absurd rfl hne
  | cons b l' =>
    have hb : p b = false := headNotOfDropWhileEqSelf hl
    rw [List.cons_append, List.dropWhile_cons, if_neg (by simp [hb])]

theorem trimLeftIdem (l : List Char) : trimLeft (trimLeft l) = trimLeft l :=
  dropWhileIdem isRustWhitespace l

theorem trimRightIdem (l : List Char) : trimRight (trimRight l) = trimRight l := by
  unfold trimRight
  rw [List.reverse_reverse, dropWhileIdem]

theorem trimRightEqSelfOfTrimRight (l : List Char) :
    trimRight (trimRight l) = trimRight l := trimRightIdem l

theorem dropWhileRevOfTrimRightEqSelf {l : List Char} (h : trimRight l = l) :
    l.reverse.dropWhile isRustWhitespace = l.reverse := by
  unfold trimRight at h
  exact List.reverse_injective (by rw [List.reverse_reverse]; exact h)

/-- A prefix of a left-trimmed list is left-trimmed. -/
theorem trimLeftOfLeading {x y : List Char} (hp : List.IsPrefix x y)
    (hy : trimLeft y = y) : trimLeft x = x := by
  cases x with
  | nil => rfl
  | cons a x' =>
    obtain ⟨t, ht⟩ := hp
    have hy' : trimLeft (a :: (x' ++ t)) = a :: (x' ++ t) := by
      rw [show a :: (x' ++ t) = y by rw [← ht]; simp]
      exact hy
    have ha : isRustWhitespace a = false := headNotOfDropWhileEqSelf hy'
    unfold trimLeft
    rw [List.dropWhile_cons, if_neg (by simp [ha])]

/-- The function `trimRight` produces a prefix of its input. -/
theorem trimRightPrefixOf (l : List Char) : List.IsPrefix (trimRight l) l := by
  obtain ⟨t, ht⟩ :=
    (List.dropWhile_suffix isRustWhitespace : _ <:+ l.reverse)
  refine ⟨t.reverse, ?_⟩
  unfold trimRight
  rw [← List.reverse_append, ht, List.reverse_reverse]

theorem trimCharsIdem (l : List Char) : trimChars (trimChars l) = trimChars l := by
  unfold trimChars
  have h1 : trimLeft (trimRight (trimLeft l)) = trimRight (trimLeft l) :=
    trimLeftOfLeading (trimRightPrefixOf (trimLeft l)) (trimLeftIdem l)
  rw [h1, trimRightIdem]

/-- Consing a non-whitespace character onto a trimmed list yields a trimmed list. -/
theorem trimCharsConsOfTrimmed {c : List Char} {a : Char}
    (ha : isRustWhitespace a = false) (hc : trimChars c = c) :
    trimChars (a :: c) = a :: c := by
  have hL : trimLeft (a :: c) = a :: c := by
    unfold trimLeft
    rw [List.dropWhile_cons, if_neg (by simp [ha])]
  have hR : trimRight c = c := by
    conv_lhs => rw [← hc]
    rw [show trimChars c = trimRight (trimLeft c) from rfl, trimRightIdem]
    exact hc
  unfold trimChars
  rw [hL]
  cases hcc : c with
  | nil =>
    unfold trimRight
    simp [List.dropWhile_cons, ha]
  | cons b c' =>
    rw [← hcc]
    have hrev : c.reverse.dropWhile isRustWhitespace = c.reverse :=
      dropWhileRevOfTrimRightEqSelf hR
    have hne : c.reverse ≠ [] := by simp [hcc]
    unfold trimRight
    rw [List.reverse_cons, dropWhileEqSelfAppend _ _ _ hrev hne]
    simp

/-- The `cleanedOf` is a trimmed list. -/
theorem cleanedOfTrimmed (s : List Char) : trimChars (cleanedOf s) = cleanedOf s :=
  trimCharsIdem _

/-- The `cleanedOf` contains no double quote. -/
theorem cleanedOfNoDq (s : List Char) : ∀ x ∈ cleanedOf s, x ≠ dq := by
  intro x hx
  have hsub : List.Sublist (cleanedOf s) (s.filter (fun c => c != dq)) := by
    unfold cleanedOf trimChars
    exact ((trimRightPrefixOf _).sublist).trans
      ((List.dropWhile_suffix isRustWhitespace).sublist)
  have := hsub.subset hx
  simp [List.mem_filter] at this
  simpa using this.2

theorem vNeDq : ('v' : Char) ≠ dq := by
  intro hvd
  have : ('v' : Char).toNat = dq.toNat := by rw [hvd]
  simp [dq, Char.ofNat] at this

/-- The output of `formatVersionL` contains no double quote. -/
theorem formatVersionLNoDq (s : List Char) : ∀ c ∈ formatVersionL s, c ≠ dq := by
  intro c hc
  unfold formatVersionL at hc
  by_cases h : (cleanedOf s).head? = some 'v'
  · rw [if_pos h] at hc
    exact cleanedOfNoDq s c hc
  · rw [if_neg h] at hc
    rcases List.mem_cons.mp hc with hv | hc
    · subst hv; exact vNeDq
    · exact cleanedOfNoDq s c hc

/-- The output of `formatVersionL` always starts with `v`. -/
theorem formatVersionLHead (s : List Char) :
    (formatVersionL s).head? = some 'v' := by
  unfold formatVersionL
  by_cases h : (cleanedOf s).head? = some 'v'
  · rw [if_pos h]; exact h
  · rw [if_neg h]; rfl

/-- Running the `cleaned` stage on an output of `formatVersionL` changes
nothing. -/
theorem cleanedOfFormatVersionL (s : List Char) :
    cleanedOf (formatVersionL s) = formatVersionL s := by
  have hnq : ∀ c ∈ formatVersionL s, c ≠ dq := formatVersionLNoDq s
  have hfilter : (formatVersionL s).filter (fun c => c != dq) = formatVersionL s :=
    List.filter_eq_self.mpr (by intro a ha; simpa using hnq a ha)
  unfold cleanedOf
  rw [hfilter]
  unfold formatVersionL
  by_cases h : (cleanedOf s).head? = some 'v'
  · rw [if_pos h, cleanedOfTrimmed]
  · rw [if_neg h]
    exact trimCharsConsOfTrimmed (by decide) (cleanedOfTrimmed s)

/-- Claim C8 at the list level: the normalizer is idempotent. -/
theorem formatVersionLIdem (s : List Char) :
    formatVersionL (formatVersionL s) = formatVersionL s := by
  have e : formatVersionL (formatVersionL s) =
      if (cleanedOf (formatVersionL s)).head? = some 'v' then
        cleanedOf (formatVersionL s)
      else 'v' :: cleanedOf (formatVersionL s) := rfl
  rw [e, cleanedOfFormatVersionL, formatVersionLHead, if_pos rfl]

/-- Claim C2: the normalizer removes all double quotes, then trims, then prepends
`v` unless the result already starts with `v`; it is total (a plain function
on strings), and on the spec's examples `" 0.1.0 "` maps to `"v0.1.0"` and
`"v2.0.0"` is unchanged. -/
theorem format_version_stages :
    (∀ s : String, format_version s = ⟨ensureV (trimChars (removeQuotes s.data))⟩) ∧
    format_version " 0.1.0 " = "v0.1.0" ∧
    format_version "v2.0.0" = "v2.0.0" := by
  refine ⟨fun s => ?_, by decide, by decide⟩
  rfl

/-- Claim C8: the normalizer is idempotent on every string. -/
theorem format_version_idempotent (s : String) :
    format_version (format_version s) = format_version s := by
  unfold format_version
  exact congrArg String.mk (formatVersionLIdem s.data)

/-- Claim C9: on every non-empty input the normalizer yields a non-empty string whose
first character is `v`. -/
theorem format_version_starts_with_v (s : String) (h : s ≠ "") :
    format_version s ≠ "" ∧ (format_version s).data.head? = some 'v' := by
  clear h
  constructor
  · intro he
    have hd : formatVersionL s.data = [] := by
      have := congrArg String.data he
      simpa [format_version] using this
    have hh := formatVersionLHead s.data
    rw [hd] at hh
    simp at hh
  · exact formatVersionLHead s.data

/-- Witness for C9 at the concrete input `"0.1.0"`. -/
theorem format_version_starts_with_v_witness :
    format_version "0.1.0" ≠ "" ∧ (format_version "0.1.0").data.head? = some 'v' :=
  format_version_starts_with_v "0.1.0" (by decide)

/-! ### The two regex-based extractors

`extract_gradle_version` compiles `(?m)^version ['"](?P<version>[^'"]+)['"]$`
and `extract_mix_version` compiles `(?m)version: "(?P<version>[^"]+)"`.
We model the leftmost-match semantics of the `regex` crate directly:
for the line-anchored Gradle pattern, the first line (in order) that matches
the whole pattern; for the unanchored Mix pattern, a scan over start
positions in order, with the greedy `[^"]+` capture running to the next
double quote. -/

/-- Split at newline characters; these are the line boundaries used by `^`
and `$` in the multi-line `(?m)` mode of the regex crate. -/
def splitOnNl : List Char → List (List Char)
  | [] => [[]]
  | c :: cs =>
    if c = '\n' then [] :: splitOnNl cs
    else
      match splitOnNl cs with
      | [] => [[c]]
      | l :: ls => (c :: l) :: ls

/-- Membership in the regex character class `['"]`. -/
def isQuote (c : Char) : Bool := c == sq || c == dq

/-- Membership in the regex character class `[^'"]`. -/
def notQuote (c : Char) : Bool := !(isQuote c)

/-- Match of `[^'"]+['"]$`: a greedy non-empty run from `[^'"]` (which in the
regex crate also matches a newline, so the run may span lines), one closing
quote, then a line end (`$` in `(?m)` mode: before a newline or at the end of
the haystack). -/
def gradleTail (rest : List Char) : Option (List Char) :=
  match rest.dropWhile notQuote with
  | [] => none
  | _ :: after =>
    if rest.takeWhile notQuote = [] then none
    else if after = [] ∨ after.head? = some '\n' then
      some (rest.takeWhile notQuote)
    else none

/-- Match of `['"][^'"]+['"]$`: an opening quote from `['"]`, then the tail. -/
def gradleAfterKey : List Char → Option (List Char)
  | [] => none
  | q1 :: rest => if isQuote q1 then gradleTail rest else none

/-- Match of the whole Gradle pattern anchored at one position where `^`
holds (the start of the haystack or just after a newline):
`version `, an opening quote from `['"]`, a non-empty run from `[^'"]`
possibly spanning lines, a closing quote from `['"]`, a line end. -/
def gradleMatchAt (line : List Char) : Option (List Char) :=
  if line.take 8 = "version ".data then gradleAfterKey (line.drop 8) else none

/-- Scan the `^`-anchored start positions from left to right, as the regex
crate's leftmost-match search does: try the current line start, otherwise
move past the next newline.  The fuel is an upper bound on the number of
line starts. -/
def gradleScan : Nat → List Char → Option (List Char)
  | 0, _ => none
  | fu + 1, l =>
    match gradleMatchAt l with
    | some v => some v
    | none =>
      match l.dropWhile (fun c => c != '\n') with
      | [] => none
      | _ :: tail => gradleScan fu tail

/-- The `extract_gradle_version` on character lists: the capture of the
leftmost match, normalized. -/
def extractGradleL (s : List Char) : Option (List Char) :=
  (gradleScan (s.length + 1) s).map formatVersionL

/-- The `extract_gradle_version` from the source, at `String` type. -/
def extract_gradle_version (s : String) : Option String :=
  (extractGradleL s.data).map fun l => ⟨l⟩

/-- Claim C4's wording of the tail: the value runs to the next quote of the
opening kind (quotes of the other kind are allowed inside the value), then
the closing quote of the same kind ends the line. -/
def gradleSpecTail (q1 : Char) (rest : List Char) : Option (List Char) :=
  match rest.dropWhile (fun c => c != q1) with
  | [_] =>
    if rest.takeWhile (fun c => c != q1) = [] then none
    else some (rest.takeWhile (fun c => c != q1))
  | _ => none

/-- Claim C4's wording after the key: opening quote, then same-kind tail. -/
def gradleSpecAfterKey : List Char → Option (List Char)
  | [] => none
  | q1 :: rest => if isQuote q1 then gradleSpecTail q1 rest else none

/-- The Gradle line pattern as claim C4 words it: the opening and closing
quote are the same kind, and the value contains no embedded quote of that
kind. -/
def gradleSpecLine (line : List Char) : Option (List Char) :=
  if line.take 8 = "version ".data then gradleSpecAfterKey (line.drop 8) else none

/-- The Gradle extractor as claim C4 words it. -/
def gradleSpecResolve (s : List Char) : Option (List Char) :=
  ((splitOnNl s).findSome? gradleSpecLine).map formatVersionL

/-- The literal text `version: "` opening a Mix version match. -/
def mixPat : List Char := "version: \"".data

/-- Match of the Mix pattern anchored at the start of `l`: the literal
`version: "`, then the greedy non-empty `[^"]+` capture, then `"`. -/
def mixMatchAt (l : List Char) : Option (List Char) :=
  if l.take 10 = mixPat then
    match (l.drop 10).dropWhile (fun c => c != dq) with
    | [] => none
    | _ :: _ =>
      if (l.drop 10).takeWhile (fun c => c != dq) = [] then none
      else some ((l.drop 10).takeWhile (fun c => c != dq))
  else none

/-- Leftmost-match scan of the Mix pattern over start positions. -/
def mixFind : List Char → Option (List Char)
  | [] => none
  | c :: cs =>
    match mixMatchAt (c :: cs) with
    | some v => some v
    | none => mixFind cs

/-- The `extract_mix_version` on character lists: the capture of the leftmost
match, normalized. -/
def extractMixL (s : List Char) : Option (List Char) :=
  (mixFind s).map formatVersionL

/-- The `extract_mix_version` from the source, at `String` type. -/
def extract_mix_version (s : String) : Option String :=
  (extractMixL s.data).map fun l => ⟨l⟩

/-! Helper lemmas for takeWhile/dropWhile decompositions. -/

theorem takeWhileAppendRun (p : Char → Bool) (a : List Char) (b : Char)
    (t : List Char) (ha : ∀ c ∈ a, p c) (hb : p b = false) :
    (a ++ b :: t).takeWhile p = a ∧ (a ++ b :: t).dropWhile p = b :: t := by
  induction a with
  | nil => simp [List.takeWhile_cons, List.dropWhile_cons, hb]
  | cons x xs ih =>
    have hx : p x := ha x (by simp)
    have ih' := ih (fun c hc => ha c (by simp [hc]))
    simp only [List.cons_append, List.takeWhile_cons, List.dropWhile_cons, hx,
      if_pos, ih'.1, ih'.2]
    simp

theorem headFailsOfDropWhileSingleton {p : Char → Bool} {l : List Char}
    {q : Char} (h : l.dropWhile p = [q]) : p q = false := by
  have := dropWhileIdem p l
  rw [h, List.dropWhile_cons] at this
  by_cases hq : p q
  · rw [if_pos hq] at this; simp at this
  · simpa using hq

theorem headFailsOfDropWhileCons {p : Char → Bool} {l t : List Char}
    {q : Char} (h : l.dropWhile p = q :: t) : p q = false := by
  have := dropWhileIdem p l
  rw [h, List.dropWhile_cons] at this
  by_cases hq : p q
  · rw [if_pos hq] at this
    have hlen : (t.dropWhile p).length ≤ t.length :=
      (List.dropWhile_suffix p).sublist.length_le
    have := congrArg List.length this
    simp at this
    omega
  · simpa using hq

/-- Characterization of a Mix match anchored at the start of `l`. -/
theorem mixMatchAtIff (l val : List Char) :
    mixMatchAt l = some val ↔
      ∃ rest, val ≠ [] ∧ (∀ c ∈ val, c ≠ dq) ∧ l = mixPat ++ val ++ dq :: rest := by
  constructor
  · intro h
    unfold mixMatchAt at h
    by_cases h10 : l.take 10 = mixPat
    · rw [if_pos h10] at h
      cases hdw : (l.drop 10).dropWhile (fun c => c != dq) with
      | nil => rw [hdw] at h; simp at h
      | cons d t =>
        rw [hdw] at h
        by_cases htw : (l.drop 10).takeWhile (fun c => c != dq) = []
        · rw [if_pos htw] at h; simp at h
        · rw [if_neg htw] at h
          have hval : (l.drop 10).takeWhile (fun c => c != dq) = val := by
            simpa using h
          have hd : d = dq := by
            have := headFailsOfDropWhileCons hdw
            simpa using this
          refine ⟨t, ?_, ?_, ?_⟩
          · rw [← hval]; exact htw
          · intro c hc
            rw [← hval] at hc
            have := List.mem_takeWhile_imp hc
            simpa using this
          · have hsplit := List.take_append_drop 10 l
            rw [h10] at hsplit
            have hrest : l.drop 10 = val ++ dq :: t := by
              rw [← List.takeWhile_append_dropWhile (fun c => c != dq) (l.drop 10),
                hval, hdw, hd]
            rw [← hsplit, hrest, List.append_assoc]
    · rw [if_neg h10] at h; simp at h
  · rintro ⟨rest, hne, hnq, rfl⟩
    have hlen : mixPat.length = 10 := rfl
    have htake : (mixPat ++ (val ++ dq :: rest)).take 10 = mixPat := by
      rw [← hlen]; exact List.take_left _ _
    have hdrop : (mixPat ++ (val ++ dq :: rest)).drop 10 = val ++ dq :: rest := by
      rw [← hlen]; exact List.drop_left _ _
    have hrun := takeWhileAppendRun (fun c => c != dq) val dq rest
      (fun c hc => by simpa using hnq c hc) (by simp)
    rw [List.append_assoc]
    unfold mixMatchAt
    rw [if_pos htake, hdrop, hrun.2]
    simp [hrun.1, hne]

/-- One-step equation of the scan. -/
theorem mixFindCons (c : Char) (cs : List Char) :
    mixFind (c :: cs) = match mixMatchAt (c :: cs) with
      | some v => some v
      | none => mixFind cs := rfl

/-- A match anchored at the current position wins the scan. -/
theorem mixFindOfMatchAt {l v : List Char} (h : mixMatchAt l = some v) :
    mixFind l = some v := by
  cases l with
  | nil =>
    rw [show mixMatchAt [] = none from by decide] at h
    simp at h
  | cons c cs =>
    rw [mixFindCons, h]

/-- With no match at the current position, the scan moves one position right. -/
theorem mixFindStep (c : Char) (cs : List Char) (h : mixMatchAt (c :: cs) = none) :
    mixFind (c :: cs) = mixFind cs := by
  rw [mixFindCons, h]

/-- Characterization of a Gradle match anchored at a `^` position: the
literal `version `, quotes of independent kinds around a non-empty run free
of quotes of either kind, and a line end after the closing quote. -/
theorem gradleMatchAtIff (line val : List Char) :
    gradleMatchAt line = some val ↔
      ∃ q1 q2 after, isQuote q1 ∧ isQuote q2 ∧ val ≠ [] ∧
        (∀ c ∈ val, notQuote c) ∧ (after = [] ∨ after.head? = some '\n') ∧
        line = "version ".data ++ q1 :: (val ++ q2 :: after) := by
  constructor
  · intro h
    unfold gradleMatchAt at h
    by_cases h8 : line.take 8 = "version ".data
    · rw [if_pos h8] at h
      cases hd : line.drop 8 with
      | nil => rw [hd] at h; simp [gradleAfterKey] at h
      | cons q1 rest =>
        rw [hd] at h
        rw [show gradleAfterKey (q1 :: rest) =
          if isQuote q1 then gradleTail rest else none from rfl] at h
        by_cases hq : isQuote q1
        · rw [if_pos hq] at h
          unfold gradleTail at h
          cases hdw : rest.dropWhile notQuote with
          | nil => rw [hdw] at h; simp at h
          | cons q2 after =>
            rw [hdw] at h
            have h' : (if rest.takeWhile notQuote = [] then none
                else if after = [] ∨ after.head? = some '\n' then
                  some (rest.takeWhile notQuote)
                else none) = some val := h
            by_cases htw : rest.takeWhile notQuote = []
            · rw [if_pos htw] at h'; simp at h'
            · rw [if_neg htw] at h'
              by_cases hend : after = [] ∨ after.head? = some '\n'
              · rw [if_pos hend] at h'
                have hval : rest.takeWhile notQuote = val := by simpa using h'
                have hq2 : isQuote q2 := by
                  have := headFailsOfDropWhileCons hdw
                  simpa [notQuote] using this
                refine ⟨q1, q2, after, hq, hq2, ?_, ?_, hend, ?_⟩
                · rw [← hval]; exact htw
                · intro c hc
                  rw [← hval] at hc
                  exact List.mem_takeWhile_imp hc
                · have hsplit := List.take_append_drop 8 line
                  rw [h8, hd] at hsplit
                  have hrest : rest = val ++ q2 :: after := by
                    rw [← List.takeWhile_append_dropWhile notQuote rest, hval, hdw]
                  rw [← hsplit, hrest]
              · rw [if_neg hend] at h'; simp at h'
        · rw [if_neg hq] at h; simp at h
    · rw [if_neg h8] at h; simp at h
  · rintro ⟨q1, q2, after, hq1, hq2, hne, hnq, hend, rfl⟩
    have hlen : ("version ".data).length = 8 := rfl
    have htake :
        ("version ".data ++ q1 :: (val ++ q2 :: after)).take 8 =
          "version ".data := by
      rw [← hlen]; exact List.take_left _ _
    have hdrop :
        ("version ".data ++ q1 :: (val ++ q2 :: after)).drop 8 =
          q1 :: (val ++ q2 :: after) := by
      rw [← hlen]; exact List.drop_left _ _
    have hrun := takeWhileAppendRun notQuote val q2 after
      (fun c hc => hnq c hc) (by simp [notQuote, hq2])
    unfold gradleMatchAt
    rw [if_pos htake, hdrop]
    rw [show gradleAfterKey (q1 :: (val ++ q2 :: after)) =
      if isQuote q1 then gradleTail (val ++ q2 :: after) else none from rfl]
    rw [if_pos hq1]
    unfold gradleTail
    rw [hrun.2]
    simp [hrun.1, hne, hend]

/-- One-step equation of the Gradle scan. -/
theorem gradleScanSucc (fu : Nat) (l : List Char) :
    gradleScan (fu + 1) l = match gradleMatchAt l with
      | some v => some v
      | none =>
        match l.dropWhile (fun c => c != '\n') with
        | [] => none
        | _ :: tail => gradleScan fu tail := rfl

/-- The scan does not depend on the fuel once the fuel exceeds the length. -/
theorem gradleScanFuel :
    ∀ (f1 f2 : Nat) (l : List Char), l.length < f1 → l.length < f2 →
      gradleScan f1 l = gradleScan f2 l := by
  intro f1
  induction f1 with
  | zero => intro f2 l h1 h2; exact absurd h1 (by omega)
  | succ f ih =>
    intro f2 l h1 h2
    cases f2 with
    | zero => exact absurd h2 (by omega)
    | succ f2 =>
      rw [gradleScanSucc, gradleScanSucc]
      cases hm : gradleMatchAt l with
      | some v => simp only [hm]
      | none =>
        simp only [hm]
        cases hdw : l.dropWhile (fun c => c != '\n') with
        | nil => simp only [hdw]
        | cons c tail =>
          simp only [hdw]
          have hlen : tail.length < l.length := by
            have hsub : (l.dropWhile (fun c => c != '\n')).length ≤ l.length :=
              (List.dropWhile_suffix _).sublist.length_le
            rw [hdw] at hsub
            simp at hsub
            omega
          exact ih f2 tail (by omega) (by omega)

/-- A match anchored at the current `^` position wins the scan. -/
theorem extractGradleOfMatchAt {l v : List Char} (h : gradleMatchAt l = some v) :
    extractGradleL l = some (formatVersionL v) := by
  unfold extractGradleL
  rw [gradleScanSucc, h]
  rfl

/-- With no match at the current `^` position, the scan moves past the next
newline to the next line start. -/
theorem extractGradleSkip {l : List Char} {c : Char} {tail : List Char}
    (h : gradleMatchAt l = none)
    (hdw : l.dropWhile (fun c => c != '\n') = c :: tail) :
    extractGradleL l = extractGradleL tail := by
  unfold extractGradleL
  rw [gradleScanSucc]
  simp only [h, hdw]
  have hlen : tail.length < l.length := by
    have hsub : (l.dropWhile (fun c => c != '\n')).length ≤ l.length :=
      (List.dropWhile_suffix _).sublist.length_le
    rw [hdw] at hsub
    simp at hsub
    omega
  rw [gradleScanFuel l.length (tail.length + 1) tail hlen (by omega)]

/-- With no match at the current `^` position and no further newline, the
scan is exhausted. -/
theorem extractGradleEnd {l : List Char} (h : gradleMatchAt l = none)
    (hdw : l.dropWhile (fun c => c != '\n') = []) :
    extractGradleL l = none := by
  unfold extractGradleL
  rw [gradleScanSucc]
  simp [h, hdw]

/-- The dependency-declaration line from the source's Gradle test. -/
def gradleDepLine : List Char :=
  "id ".data ++ sq :: "test.plugin".data ++ sq :: " version ".data ++
    sq :: "0.2.0".data ++ [sq]

/-- A Gradle text: a dependency line followed by a pre-release version line. -/
def gradleRcText : List Char :=
  gradleDepLine ++ '\n' :: ("version ".data ++ sq :: "0.1.0-rc1".data ++ [sq])

/-- A Gradle text whose match spans a newline: `version 'a`, newline, `b'`.
The regex crate's `[^'"]` class matches the newline, so the code captures
`a`, newline, `b`. -/
def gradleCrossText : List Char :=
  "version ".data ++ sq :: 'a' :: '\n' :: 'b' :: [sq]

/-- A line accepted by the code but not by claim C4: the opening quote is
single, the closing quote double. -/
def gradleCounterLine : List Char := "version ".data ++ sq :: 'a' :: [dq]

/-- No Gradle match can be anchored at the dependency-declaration line: its
first eight characters are not `version `. -/
theorem gradleDepLineNoMatch (rest : List Char) :
    gradleMatchAt (gradleDepLine ++ rest) = none := by
  unfold gradleMatchAt
  rw [if_neg]
  intro hcontra
  rw [List.take_append_eq_append_take,
    show (8 : Nat) - gradleDepLine.length = 0 from by decide,
    List.take_zero, List.append_nil] at hcontra
  exact absurd hcontra (by decide)

/-- Claim C4 counterexample: on the line `version 'a"` the code's extractor finds a
match (mixed quote kinds are accepted by the regex) while the pattern claimed
in C4 (same-kind opening and closing quote) finds none. -/
theorem extract_gradle_version_quote_kinds_counterexample :
    extract_gradle_version ⟨gradleCounterLine⟩ = some "va" ∧
    gradleSpecResolve gradleCounterLine = none := by decide

/-- Claim C4 (amended): the Gradle extractor returns the normalized capture of
the leftmost match, over `^`-anchored start positions (the start of the text
and each position after a newline), of: `version `, an opening quote that is,
independently of the closing one, a single or a double quote, a non-empty
greedy run of characters containing no quote of either kind (the run may span
newlines), a closing quote of either kind, then a line end.  It never matches
at the dependency-declaration line `id 'test.plugin' version '0.2.0'`,
pre-release suffixes such as `0.1.0-rc1` are preserved verbatim after the `v`
prefix, and the match on `version 'a`, newline, `b'` spans the newline. -/
theorem extract_gradle_version_amended :
    (∀ line val, gradleMatchAt line = some val ↔
      ∃ q1 q2 after, isQuote q1 ∧ isQuote q2 ∧ val ≠ [] ∧
        (∀ c ∈ val, notQuote c) ∧ (after = [] ∨ after.head? = some '\n') ∧
        line = "version ".data ++ q1 :: (val ++ q2 :: after)) ∧
    (∀ (l v : List Char), gradleMatchAt l = some v →
      extractGradleL l = some (formatVersionL v)) ∧
    (∀ (l : List Char) (c : Char) (tail : List Char), gradleMatchAt l = none →
      l.dropWhile (fun c => c != '\n') = c :: tail →
      extractGradleL l = extractGradleL tail) ∧
    (∀ l : List Char, gradleMatchAt l = none →
      l.dropWhile (fun c => c != '\n') = [] → extractGradleL l = none) ∧
    (∀ s : String, extract_gradle_version s =
      (extractGradleL s.data).map fun l => (⟨l⟩ : String)) ∧
    (∀ rest, gradleMatchAt (gradleDepLine ++ rest) = none) ∧
    extract_gradle_version ⟨gradleRcText⟩ = some "v0.1.0-rc1" ∧
    extract_gradle_version ⟨gradleCrossText⟩ = some "va\nb" :=
  ⟨gradleMatchAtIff,
    fun l v h => extractGradleOfMatchAt h,
    fun l c tail h hdw => extractGradleSkip h hdw,
    fun l h hdw => extractGradleEnd h hdw,
    fun s => rfl,
    gradleDepLineNoMatch,
    by decide, by decide⟩

/-- Witness for C4 (amended) at a concrete line `version "1.0"`. -/
theorem extract_gradle_version_amended_witness :
    gradleMatchAt ("version ".data ++ dq :: ("1.0".data ++ dq :: [])) =
      some "1.0".data :=
  (extract_gradle_version_amended.1 _ _).mpr
    ⟨dq, dq, [], by decide, by decide, by decide, by decide, Or.inl rfl, rfl⟩

/-- The Mix project text of the source's build-metadata test. -/
def mixExampleText : String :=
  "  def project do\n    [\n      app: :my_app,\n      version: \"0.9.9-dev+20130417140000.amd64\"\n    ]\n  end"

/-- Claim C5: the Mix extractor returns the normalized capture of the leftmost match
of `version: "<value>"`: a match anchored at a position is exactly a non-empty
run of non-quote characters after the literal `version: "`, extending to the
closing double quote; a match at the current position wins, otherwise the scan
advances one position; and the build-metadata example from the spec yields
`v0.9.9-dev+20130417140000.amd64`. -/
theorem extract_mix_version_first_match :
    (∀ l val, mixMatchAt l = some val ↔
      ∃ rest, val ≠ [] ∧ (∀ c ∈ val, c ≠ dq) ∧ l = mixPat ++ val ++ dq :: rest) ∧
    (∀ l val, mixMatchAt l = some val → mixFind l = some val) ∧
    (∀ c cs, mixMatchAt (c :: cs) = none → mixFind (c :: cs) = mixFind cs) ∧
    extract_mix_version mixExampleText = some "v0.9.9-dev+20130417140000.amd64" := by
  refine ⟨mixMatchAtIff, fun l val h => mixFindOfMatchAt h,
    fun c cs h => mixFindStep c cs h, by decide⟩

/-- Witness for C5 at the concrete text `version: "1"`. -/
theorem extract_mix_version_first_match_witness :
    mixFind (mixPat ++ ['1', dq]) = some ['1'] :=
  extract_mix_version_first_match.2.1 _ _ (by decide)

/-! ### JSON model

The source parses `package.json` and `composer.json` with `serde_json`, an
external library collaborator.  `JVal` is `serde_json::Value`; `jsonFromStr`
models `json::from_str` on the JSON fragment exercised here (objects, arrays,
strings with the basic escapes, integer numbers, booleans, null); texts using
unsupported constructs (floats, `\u` escapes) parse to `none`, so every
theorem quantifying over parsed texts is conditioned on the parse outcome. -/

inductive JVal where
  | null
  | bool (b : Bool)
  | num (n : Int)
  | str (s : List Char)
  | arr (xs : List JVal)
  | obj (kvs : List (List Char × JVal))

/-- Association-list lookup where the later binding wins, matching
serde_json's map insertion on duplicate keys. -/
def lookupLast (kvs : List (List Char × JVal)) (k : List Char) : Option JVal :=
  match kvs with
  | [] => none
  | (k0, v0) :: rest =>
    match lookupLast rest k with
    | some v => some v
    | none => if k0 = k then some v0 else none

/-- The `serde_json::Value::get` with a string key: lookup in an object, `None`
on any other value. -/
def jget : JVal → List Char → Option JVal
  | JVal.obj kvs, k => lookupLast kvs k
  | _, _ => none

/-- The `serde_json::Value::as_bool`. -/
def jasBool : JVal → Option Bool
  | JVal.bool b => some b
  | _ => none

/-- The `serde_json::Value::as_str`. -/
def jasStr : JVal → Option (List Char)
  | JVal.str s => some s
  | _ => none

/-- Opening curly brace. -/
def lcurly : Char := Char.ofNat 123

/-- Closing curly brace. -/
def rcurly : Char := Char.ofNat 125

/-- JSON insignificant whitespace. -/
def jsonWs (c : Char) : Bool :=
  let n := c.toNat
  n == 32 || n == 9 || n == 10 || n == 13

def skipJWs (l : List Char) : List Char := l.dropWhile jsonWs

/-- The basic string escapes shared by the JSON and TOML string grammars. -/
def escChar (e : Char) : Option Char :=
  if e = dq then some dq
  else if e = '\\' then some '\\'
  else if e = '/' then some '/'
  else if e = 'n' then some '\n'
  else if e = 't' then some '\t'
  else if e = 'r' then some '\r'
  else if e = 'b' then some (Char.ofNat 8)
  else if e = 'f' then some (Char.ofNat 12)
  else none

/-- Scan the remainder of a double-quoted string after the opening quote,
returning its contents and the input after the closing quote. -/
def strScan : List Char → Option (List Char × List Char)
  | [] => none
  | c :: cs =>
    if c = dq then some ([], cs)
    else if c = '\\' then
      match cs with
      | [] => none
      | e :: cs' =>
        match escChar e with
        | none => none
        | some r =>
          match strScan cs' with
          | none => none
          | some (s, rest) => some (r :: s, rest)
    else
      match strScan cs with
      | none => none
      | some (s, rest) => some (c :: s, rest)

def digitVal (c : Char) : Nat := c.toNat - 48

def natFromDigits (l : List Char) : Nat :=
  l.foldl (fun a c => a * 10 + digitVal c) 0

/-- Parse an integer JSON number starting at `l`; floats and exponents are
outside the modelled fragment and reject. -/
def jnum (l : List Char) : Option (JVal × List Char) :=
  let body := if l.head? = some '-' then l.tail else l
  let ds := body.takeWhile Char.isDigit
  let rest := body.dropWhile Char.isDigit
  if ds = [] then none
  else if rest.head? = some '.' || rest.head? = some 'e' || rest.head? = some 'E'
  then none
  else
    let n : Int := Int.ofNat (natFromDigits ds)
    some (JVal.num (if l.head? = some '-' then -n else n), rest)

/-- What one step of the JSON parse loop produces. -/
inductive JOut where
  | v (x : JVal)
  | ms (kvs : List (List Char × JVal))
  | es (xs : List JVal)

/-- Parse mode: one value, the members of an object (up to and including the
closing brace), or the elements of an array. -/
inductive JMode where
  | val
  | members
  | elems

/-- Fuel-indexed JSON parse loop. -/
def jstep : Nat → JMode → List Char → Option (JOut × List Char)
  | 0, _, _ => none
  | fu + 1, JMode.val, cs =>
    match skipJWs cs with
    | [] => none
    | c :: rest =>
      if c = lcurly then
        match skipJWs rest with
        | r :: rs =>
          if r = rcurly then some (JOut.v (JVal.obj []), rs)
          else
            match jstep fu JMode.members (skipJWs rest) with
            | some (JOut.ms kvs, rest2) => some (JOut.v (JVal.obj kvs), rest2)
            | _ => none
        | [] => none
      else if c = '[' then
        match skipJWs rest with
        | r :: rs =>
          if r = ']' then some (JOut.v (JVal.arr []), rs)
          else
            match jstep fu JMode.elems (skipJWs rest) with
            | some (JOut.es xs, rest2) => some (JOut.v (JVal.arr xs), rest2)
            | _ => none
        | [] => none
      else if c = dq then
        match strScan rest with
        | some (s, r2) => some (JOut.v (JVal.str s), r2)
        | none => none
      else if c = 't' then
        if rest.take 3 = "rue".data then some (JOut.v (JVal.bool true), rest.drop 3)
        else none
      else if c = 'f' then
        if rest.take 4 = "alse".data then some (JOut.v (JVal.bool false), rest.drop 4)
        else none
      else if c = 'n' then
        if rest.take 3 = "ull".data then some (JOut.v JVal.null, rest.drop 3)
        else none
      else if c = '-' || c.isDigit then
        match jnum (c :: rest) with
        | some (v, r2) => some (JOut.v v, r2)
        | none => none
      else none
  | fu + 1, JMode.members, cs =>
    match skipJWs cs with
    | [] => none
    | k :: rest =>
      if k = dq then
        match strScan rest with
        | none => none
        | some (key, r2) =>
          match skipJWs r2 with
          | ':' :: r4 =>
            match jstep fu JMode.val r4 with
            | some (JOut.v v, r5) =>
              match skipJWs r5 with
              | [] => none
              | c :: r7 =>
                if c = ',' then
                  match jstep fu JMode.members r7 with
                  | some (JOut.ms kvs, r8) => some (JOut.ms ((key, v) :: kvs), r8)
                  | _ => none
                else if c = rcurly then some (JOut.ms [(key, v)], r7)
                else none
            | _ => none
          | _ => none
      else none
  | fu + 1, JMode.elems, cs =>
    match jstep fu JMode.val cs with
    | some (JOut.v v, r5) =>
      match skipJWs r5 with
      | [] => none
      | c :: r7 =>
        if c = ',' then
          match jstep fu JMode.elems r7 with
          | some (JOut.es xs, r8) => some (JOut.es (v :: xs), r8)
          | _ => none
        else if c = ']' then some (JOut.es [v], r7)
        else none
    | _ => none

/-- The `json::from_str` on the modelled fragment: one value, then only
whitespace to the end of the text. -/
def jsonFromStr (s : List Char) : Option JVal :=
  match jstep (2 * s.length + 4) JMode.val s with
  | some (JOut.v v, rest) => if skipJWs rest = [] then some v else none
  | _ => none

/-- The `extract_package_version` on character lists, from the source: parse,
suppress when `private` is boolean `true`, read `version` as a string,
suppress the literal string `null`, normalize. -/
def extractPackageL (s : List Char) : Option (List Char) :=
  match jsonFromStr s with
  | none => none
  | some pj =>
    if (jget pj "private".data).bind jasBool = some true then none
    else
      match (jget pj "version".data).bind jasStr with
      | none => none
      | some raw => if raw = "null".data then none else some (formatVersionL raw)

/-- The `extract_package_version` from the source, at `String` type. -/
def extract_package_version (s : String) : Option String :=
  (extractPackageL s.data).map fun l => ⟨l⟩

/-- The `extract_composer_version` on character lists, from the source: parse,
read `version` as a string, suppress the literal string `null`, normalize. -/
def extractComposerL (s : List Char) : Option (List Char) :=
  match jsonFromStr s with
  | none => none
  | some cj =>
    match (jget cj "version".data).bind jasStr with
    | none => none
    | some raw => if raw = "null".data then none else some (formatVersionL raw)

/-- The `extract_composer_version` from the source, at `String` type. -/
def extract_composer_version (s : String) : Option String :=
  (extractComposerL s.data).map fun l => ⟨l⟩

/-- Claim C6: for every `package.json` text whose parse yields a value with
`private` equal to the JSON boolean `true`, the Node extractor returns `none`
even though a string `version` field is present. -/
theorem extract_package_version_private_true (t : String) (v : JVal)
    (ver : List Char)
    (hparse : jsonFromStr t.data = some v)
    (hpriv : jget v "private".data = some (JVal.bool true))
    (hver : jget v "version".data = some (JVal.str ver)) :
    extract_package_version t = none := by
  clear hver
  unfold extract_package_version extractPackageL
  rw [hparse]
  simp [hpriv, jasBool]

/-- A `package.json` with `private: true` and a valid version. -/
def packagePrivateText : String :=
  "\x7b\"private\": true, \"version\": \"0.1.0\"\x7d"

/-- Witness for C6 at a concrete private package text. -/
theorem extract_package_version_private_true_witness :
    extract_package_version packagePrivateText = none :=
  extract_package_version_private_true packagePrivateText
    (JVal.obj [("private".data, JVal.bool true),
      ("version".data, JVal.str "0.1.0".data)])
    "0.1.0".data rfl rfl rfl

/-- Claim C7: for both the Node and the Composer extractor, a `version` field that
is the literal four-character string `"null"` yields `none`, and a `version`
field that is JSON `null` also yields `none` (the latter through the
string-type-mismatch path of `as_str`); at the output boundary the two cases
coincide. -/
theorem version_literal_null_yields_none :
    (∀ (t : String) (v : JVal), jsonFromStr t.data = some v →
      jget v "version".data = some (JVal.str "null".data) →
      extract_package_version t = none) ∧
    (∀ (t : String) (v : JVal), jsonFromStr t.data = some v →
      jget v "version".data = some JVal.null →
      extract_package_version t = none) ∧
    (∀ (t : String) (v : JVal), jsonFromStr t.data = some v →
      jget v "version".data = some (JVal.str "null".data) →
      extract_composer_version t = none) ∧
    (∀ (t : String) (v : JVal), jsonFromStr t.data = some v →
      jget v "version".data = some JVal.null →
      extract_composer_version t = none) := by
  refine ⟨fun t v hparse hver => ?_, fun t v hparse hver => ?_,
    fun t v hparse hver => ?_, fun t v hparse hver => ?_⟩
  · unfold extract_package_version extractPackageL
    rw [hparse]
    by_cases hp : (jget v "private".data).bind jasBool = some true
    · simp [hp]
    · simp [hp, hver, jasStr]
  · unfold extract_package_version extractPackageL
    rw [hparse]
    by_cases hp : (jget v "private".data).bind jasBool = some true
    · simp [hp]
    · simp [hp, hver, jasStr]
  · unfold extract_composer_version extractComposerL
    rw [hparse]
    simp [hver, jasStr]
  · unfold extract_composer_version extractComposerL
    rw [hparse]
    simp [hver, jasStr]

/-- A manifest whose `version` is the literal string `"null"`. -/
def versionNullStringText : String := "\x7b\"version\": \"null\"\x7d"

/-- A manifest whose `version` is JSON `null`. -/
def versionJsonNullText : String := "\x7b\"version\": null\x7d"

/-- Witness for C7 at the two concrete manifests. -/
theorem version_literal_null_yields_none_witness :
    extract_package_version versionNullStringText = none ∧
    extract_package_version versionJsonNullText = none ∧
    extract_composer_version versionNullStringText = none ∧
    extract_composer_version versionJsonNullText = none :=
  ⟨version_literal_null_yields_none.1 versionNullStringText
      (JVal.obj [("version".data, JVal.str "null".data)]) rfl rfl,
    version_literal_null_yields_none.2.1 versionJsonNullText
      (JVal.obj [("version".data, JVal.null)]) rfl rfl,
    version_literal_null_yields_none.2.2.1 versionNullStringText
      (JVal.obj [("version".data, JVal.str "null".data)]) rfl rfl,
    version_literal_null_yields_none.2.2.2 versionJsonNullText
      (JVal.obj [("version".data, JVal.null)]) rfl rfl⟩

/-- Claim C10: the private-package suppression triggers only on the JSON boolean
`true`: with `private` present at any value whose `as_bool` is not
`Some(true)` and a string `version` other than `"null"`, the Node extractor
still returns the normalized version. -/
theorem extract_package_version_private_not_true (t : String) (v p : JVal)
    (ver : List Char)
    (hparse : jsonFromStr t.data = some v)
    (hpriv : jget v "private".data = some p)
    (hpb : jasBool p ≠ some true)
    (hver : jget v "version".data = some (JVal.str ver))
    (hnn : ver ≠ "null".data) :
    extract_package_version t = some ⟨formatVersionL ver⟩ := by
  unfold extract_package_version extractPackageL
  rw [hparse]
  simp [hpriv, hpb, hver, jasStr, hnn]

/-- A `package.json` with a non-boolean `private` and a valid version. -/
def packagePrivateNumText : String :=
  "\x7b\"private\": 1, \"version\": \"0.1.0\"\x7d"

/-- Witness for C10 at a concrete text with `private: 1`. -/
theorem extract_package_version_private_not_true_witness :
    extract_package_version packagePrivateNumText = some "v0.1.0" :=
  extract_package_version_private_not_true packagePrivateNumText
    (JVal.obj [("private".data, JVal.num 1),
      ("version".data, JVal.str "0.1.0".data)])
    (JVal.num 1) "0.1.0".data rfl rfl (by decide) rfl (by decide)

/-! ### TOML model

The source parses `Cargo.toml`, `pyproject.toml` and `Project.toml` with the
external `toml` library.  `TVal` is `toml::Value`; `tomlFromStr` models
`toml::from_str` on the TOML fragment exercised here (headers of bare dotted
keys, bare keys bound to basic strings, integers or booleans, comments);
texts using unsupported constructs parse to `none`, so every theorem
quantifying over parsed texts is conditioned on the parse outcome. -/

inductive TVal where
  | str (s : List Char)
  | int (n : Int)
  | bool (b : Bool)
  | table (kvs : List (List Char × TVal))

/-- Table lookup; keys are unique because a duplicate key is a parse error. -/
def tLookup (kvs : List (List Char × TVal)) (k : List Char) : Option TVal :=
  match kvs with
  | [] => none
  | (k0, v0) :: rest => if k0 = k then some v0 else tLookup rest k

/-- The `toml::Value::get` with a string key: lookup in a table, `None` on any
other value. -/
def tget : TVal → List Char → Option TVal
  | TVal.table kvs, k => tLookup kvs k
  | _, _ => none

/-- The `toml::Value::as_str`. -/
def tasStr : TVal → Option (List Char)
  | TVal.str s => some s
  | _ => none

/-- TOML insignificant whitespace: space and tab. -/
def tomlWs (c : Char) : Bool := c.toNat == 32 || c.toNat == 9

def skipTWs (l : List Char) : List Char := l.dropWhile tomlWs

def isBareKeyChar (c : Char) : Bool := c.isAlphanum || c == '_' || c == '-'

/-- Only whitespace or a comment remains on the line. -/
def isBlankOrComment (l : List Char) : Bool :=
  match skipTWs l with
  | [] => true
  | c :: _ => c == '#'

/-- Parse one TOML value of the modelled fragment: basic string, boolean, or
integer. -/
def tomlValue (l : List Char) : Option (TVal × List Char) :=
  match skipTWs l with
  | [] => none
  | c :: rest =>
    if c = dq then
      match strScan rest with
      | some (s, r2) => some (TVal.str s, r2)
      | none => none
    else if c = 't' then
      if rest.take 3 = "rue".data then some (TVal.bool true, rest.drop 3) else none
    else if c = 'f' then
      if rest.take 4 = "alse".data then some (TVal.bool false, rest.drop 4)
      else none
    else if c = '-' || c.isDigit then
      let body := if c = '-' then rest else c :: rest
      let ds := body.takeWhile Char.isDigit
      let r2 := body.dropWhile Char.isDigit
      if ds = [] then none
      else
        let n : Int := Int.ofNat (natFromDigits ds)
        some (TVal.int (if c = '-' then -n else n), r2)
    else none

/-- Parse the dotted bare-key path of a `[a.b.c]` header, consuming the
closing bracket. -/
def parseDotted : Nat → List Char → Option (List (List Char) × List Char)
  | 0, _ => none
  | fu + 1, l =>
    let l1 := skipTWs l
    let key := l1.takeWhile isBareKeyChar
    let r1 := skipTWs (l1.dropWhile isBareKeyChar)
    if key = [] then none
    else
      match r1 with
      | ']' :: r2 => some ([key], r2)
      | '.' :: r2 =>
        match parseDotted fu r2 with
        | some (ks, r3) => some (key :: ks, r3)
        | none => none
      | _ => none

/-- One classified TOML line. -/
inductive TLine where
  | blank
  | header (path : List (List Char))
  | kv (key : List Char) (v : TVal)

/-- Classify one line: blank/comment, `[a.b]` header, or `key = value`. -/
def parseTomlLine (l : List Char) : Option TLine :=
  match skipTWs l with
  | [] => some TLine.blank
  | c :: rest =>
    if c = '#' then some TLine.blank
    else if c = '[' then
      match parseDotted (rest.length + 1) rest with
      | some (path, r2) =>
        if isBlankOrComment r2 then some (TLine.header path) else none
      | none => none
    else
      let key := (c :: rest).takeWhile isBareKeyChar
      let r1 := skipTWs ((c :: rest).dropWhile isBareKeyChar)
      if key = [] then none
      else
        match r1 with
        | '=' :: r2 =>
          match tomlValue r2 with
          | some (v, r3) =>
            if isBlankOrComment r3 then some (TLine.kv key v) else none
          | none => none
        | _ => none

/-- Replace the binding of `k` in an association list. -/
def tReplace (kvs : List (List Char × TVal)) (k : List Char) (v : TVal) :
    List (List Char × TVal) :=
  kvs.map (fun kv => if kv.1 = k then (k, v) else kv)

/-- Insert `key = v` at `path` below `t`, creating intermediate tables;
a duplicate key or a traversal through a non-table is an error. -/
def tInsert : TVal → List (List Char) → List Char → TVal → Option TVal
  | TVal.table kvs, [], key, v =>
    if (tLookup kvs key).isSome then none
    else some (TVal.table (kvs ++ [(key, v)]))
  | TVal.table kvs, p :: ps, key, v =>
    match tLookup kvs p with
    | none =>
      match tInsert (TVal.table []) ps key v with
      | some sub => some (TVal.table (kvs ++ [(p, sub)]))
      | none => none
    | some u =>
      match tInsert u ps key v with
      | some sub => some (TVal.table (tReplace kvs p sub))
      | none => none
  | _, _, _, _ => none

/-- Make the table at `path` exist below `t`, creating intermediate tables;
a traversal through a non-table value is an error. -/
def tEnsure : TVal → List (List Char) → Option TVal
  | TVal.table kvs, [] => some (TVal.table kvs)
  | TVal.table kvs, p :: ps =>
    match tLookup kvs p with
    | none =>
      match tEnsure (TVal.table []) ps with
      | some sub => some (TVal.table (kvs ++ [(p, sub)]))
      | none => none
    | some u =>
      match tEnsure u ps with
      | some sub => some (TVal.table (tReplace kvs p sub))
      | none => none
  | _, _ => none

/-- Strip one trailing carriage return (a CRLF line ending). -/
def stripCR (l : List Char) : List Char :=
  match l.reverse with
  | '\r' :: r => r.reverse
  | _ => l

/-- Process the lines of a TOML document, carrying the root table and the
current header path. -/
def tomlLines : List (List Char) → TVal → List (List Char) → Option TVal
  | [], root, _ => some root
  | line :: rest, root, cur =>
    match parseTomlLine (stripCR line) with
    | none => none
    | some TLine.blank => tomlLines rest root cur
    | some (TLine.header path) =>
      match tEnsure root path with
      | some root2 => tomlLines rest root2 path
      | none => none
    | some (TLine.kv key v) =>
      match tInsert root cur key v with
      | some root2 => tomlLines rest root2 cur
      | none => none

/-- The `toml::from_str` on the modelled fragment. -/
def tomlFromStr (s : List Char) : Option TVal :=
  tomlLines (splitOnNl s) (TVal.table []) []

/-- The `extract_cargo_version` on character lists, from the source:
`package.version` as a string, normalized. -/
def extractCargoL (s : List Char) : Option (List Char) :=
  match tomlFromStr s with
  | none => none
  | some ct =>
    match ((tget ct "package".data).bind (fun p => tget p "version".data)).bind
        tasStr with
    | none => none
    | some raw => some (formatVersionL raw)

/-- The `extract_cargo_version` from the source, at `String` type. -/
def extract_cargo_version (s : String) : Option String :=
  (extractCargoL s.data).map fun l => ⟨l⟩

/-- The `extract_poetry_version` on character lists, from the source:
`tool.poetry.version` as a string, normalized. -/
def extractPoetryL (s : List Char) : Option (List Char) :=
  match tomlFromStr s with
  | none => none
  | some pt =>
    match (((tget pt "tool".data).bind (fun p => tget p "poetry".data)).bind
        (fun p => tget p "version".data)).bind tasStr with
    | none => none
    | some raw => some (formatVersionL raw)

/-- The `extract_poetry_version` from the source, at `String` type. -/
def extract_poetry_version (s : String) : Option String :=
  (extractPoetryL s.data).map fun l => ⟨l⟩

/-- The `extract_project_version` on character lists, from the source: top-level
`version` as a string, normalized. -/
def extractProjectL (s : List Char) : Option (List Char) :=
  match tomlFromStr s with
  | none => none
  | some pt =>
    match (tget pt "version".data).bind tasStr with
    | none => none
    | some raw => some (formatVersionL raw)

/-- The `extract_project_version` from the source, at `String` type. -/
def extract_project_version (s : String) : Option String :=
  (extractProjectL s.data).map fun l => ⟨l⟩

/-- The filesystem collaborator `utils::read_file(base_dir.join(name))`,
keyed by candidate file name: `some text` for a successful read, `none` for
a failed one. -/
def FS := String → Option String

/-- The `get_package_version` from the source: the if-let chain over the seven
candidates in their fixed order. -/
def get_package_version (fs : FS) : Option String :=
  match fs "Cargo.toml" with
  | some cargo_toml => extract_cargo_version cargo_toml
  | none =>
    match fs "package.json" with
    | some package_json => extract_package_version package_json
    | none =>
      match fs "pyproject.toml" with
      | some poetry_toml => extract_poetry_version poetry_toml
      | none =>
        match fs "composer.json" with
        | some composer_json => extract_composer_version composer_json
        | none =>
          match fs "build.gradle" with
          | some build_gradle => extract_gradle_version build_gradle
          | none =>
            match fs "Project.toml" with
            | some project_toml => extract_project_version project_toml
            | none =>
              match fs "mix.exs" with
              | some mix_file => extract_mix_version mix_file
              | none => none

/-- Claim C3: every extractor is a total function into `Option`; an unparsable
text, an absent version key, a wrong-typed version field, or a missing regex
match yields `none` (lookup failures are expressed by the very accessor
chains the source composes with `?`). -/
theorem extractor_failures_yield_none :
    (∀ t : String, tomlFromStr t.data = none →
      extract_cargo_version t = none ∧ extract_poetry_version t = none ∧
        extract_project_version t = none) ∧
    (∀ t : String, jsonFromStr t.data = none →
      extract_package_version t = none ∧ extract_composer_version t = none) ∧
    (∀ (t : String) (v : TVal), tomlFromStr t.data = some v →
      ((tget v "package".data).bind (fun p => tget p "version".data)).bind
        tasStr = none →
      extract_cargo_version t = none) ∧
    (∀ (t : String) (v : TVal), tomlFromStr t.data = some v →
      (((tget v "tool".data).bind (fun p => tget p "poetry".data)).bind
        (fun p => tget p "version".data)).bind tasStr = none →
      extract_poetry_version t = none) ∧
    (∀ (t : String) (v : TVal), tomlFromStr t.data = some v →
      (tget v "version".data).bind tasStr = none →
      extract_project_version t = none) ∧
    (∀ (t : String) (v : JVal), jsonFromStr t.data = some v →
      (jget v "version".data).bind jasStr = none →
      extract_package_version t = none) ∧
    (∀ (t : String) (v : JVal), jsonFromStr t.data = some v →
      (jget v "version".data).bind jasStr = none →
      extract_composer_version t = none) ∧
    (∀ t : String, gradleScan (t.data.length + 1) t.data = none →
      extract_gradle_version t = none) ∧
    (∀ t : String, mixFind t.data = none → extract_mix_version t = none) := by
  refine ⟨fun t h => ?_, fun t h => ?_, fun t v h hc => ?_, fun t v h hc => ?_,
    fun t v h hc => ?_, fun t v h hc => ?_, fun t v h hc => ?_,
    fun t h => ?_, fun t h => ?_⟩
  · exact ⟨by simp [extract_cargo_version, extractCargoL, h],
      by simp [extract_poetry_version, extractPoetryL, h],
      by simp [extract_project_version, extractProjectL, h]⟩
  · exact ⟨by simp [extract_package_version, extractPackageL, h],
      by simp [extract_composer_version, extractComposerL, h]⟩
  · simp [extract_cargo_version, extractCargoL, h, hc]
  · simp [extract_poetry_version, extractPoetryL, h, hc]
  · simp [extract_project_version, extractProjectL, h, hc]
  · unfold extract_package_version extractPackageL
    rw [h]
    by_cases hp : (jget v "private".data).bind jasBool = some true
    · simp [hp]
    · simp [hp, hc]
  · simp [extract_composer_version, extractComposerL, h, hc]
  · unfold extract_gradle_version extractGradleL
    rw [h]
    rfl
  · simp [extract_mix_version, extractMixL, h]

/-- A Cargo manifest without a version field. -/
def cargoNoVersionText : String := "[package]\nname = \"starship\""

/-- The parse of `cargoNoVersionText`. -/
def cargoNoVersionVal : TVal :=
  TVal.table [("package".data,
    TVal.table [("name".data, TVal.str "starship".data)])]

/-- A Node manifest without a version field. -/
def packageNoVersionJson : String := "\x7b\"name\": \"spacefish\"\x7d"

/-- The parse of `packageNoVersionJson`. -/
def packageNoVersionVal : JVal :=
  JVal.obj [("name".data, JVal.str "spacefish".data)]

/-- Witness for C3 at `"@"` (unparsable in every format), a Cargo manifest
without a version, and a Node manifest without a version. -/
theorem extractor_failures_yield_none_witness :
    (extract_cargo_version "@" = none ∧ extract_poetry_version "@" = none ∧
      extract_project_version "@" = none) ∧
    (extract_package_version "@" = none ∧ extract_composer_version "@" = none) ∧
    extract_cargo_version cargoNoVersionText = none ∧
    extract_poetry_version cargoNoVersionText = none ∧
    extract_project_version cargoNoVersionText = none ∧
    extract_package_version packageNoVersionJson = none ∧
    extract_composer_version packageNoVersionJson = none ∧
    extract_gradle_version "@" = none ∧
    extract_mix_version "@" = none :=
  ⟨extractor_failures_yield_none.1 "@" rfl,
    extractor_failures_yield_none.2.1 "@" rfl,
    extractor_failures_yield_none.2.2.1 cargoNoVersionText cargoNoVersionVal
      rfl rfl,
    extractor_failures_yield_none.2.2.2.1 cargoNoVersionText cargoNoVersionVal
      rfl rfl,
    extractor_failures_yield_none.2.2.2.2.1 cargoNoVersionText cargoNoVersionVal
      rfl rfl,
    extractor_failures_yield_none.2.2.2.2.2.1 packageNoVersionJson
      packageNoVersionVal rfl rfl,
    extractor_failures_yield_none.2.2.2.2.2.2.1 packageNoVersionJson
      packageNoVersionVal rfl rfl,
    extractor_failures_yield_none.2.2.2.2.2.2.2.1 "@" rfl,
    extractor_failures_yield_none.2.2.2.2.2.2.2.2 "@" rfl⟩

/-- Claim C1: the resolver inspects the candidates in the fixed order Cargo.toml,
package.json, pyproject.toml, composer.json, build.gradle, Project.toml,
mix.exs; the first candidate whose read succeeds fully determines the result
(its extractor's result is returned whether `some` or `none`); in particular,
a readable Cargo manifest yielding no version hides a readable Node manifest
that would yield one, and when no candidate is readable the result is
`none`. -/
theorem get_package_version_first_readable :
    (∀ (fs : FS) t, fs "Cargo.toml" = some t →
      get_package_version fs = extract_cargo_version t) ∧
    (∀ (fs : FS) t, fs "Cargo.toml" = none → fs "package.json" = some t →
      get_package_version fs = extract_package_version t) ∧
    (∀ (fs : FS) t, fs "Cargo.toml" = none → fs "package.json" = none →
      fs "pyproject.toml" = some t →
      get_package_version fs = extract_poetry_version t) ∧
    (∀ (fs : FS) t, fs "Cargo.toml" = none → fs "package.json" = none →
      fs "pyproject.toml" = none → fs "composer.json" = some t →
      get_package_version fs = extract_composer_version t) ∧
    (∀ (fs : FS) t, fs "Cargo.toml" = none → fs "package.json" = none →
      fs "pyproject.toml" = none → fs "composer.json" = none →
      fs "build.gradle" = some t →
      get_package_version fs = extract_gradle_version t) ∧
    (∀ (fs : FS) t, fs "Cargo.toml" = none → fs "package.json" = none →
      fs "pyproject.toml" = none → fs "composer.json" = none →
      fs "build.gradle" = none → fs "Project.toml" = some t →
      get_package_version fs = extract_project_version t) ∧
    (∀ (fs : FS) t, fs "Cargo.toml" = none → fs "package.json" = none →
      fs "pyproject.toml" = none → fs "composer.json" = none →
      fs "build.gradle" = none → fs "Project.toml" = none →
      fs "mix.exs" = some t →
      get_package_version fs = extract_mix_version t) ∧
    (∀ (fs : FS) t1 t2 ver, fs "Cargo.toml" = some t1 →
      extract_cargo_version t1 = none → fs "package.json" = some t2 →
      extract_package_version t2 = some ver →
      get_package_version fs = none) ∧
    (∀ fs : FS, fs "Cargo.toml" = none → fs "package.json" = none →
      fs "pyproject.toml" = none → fs "composer.json" = none →
      fs "build.gradle" = none → fs "Project.toml" = none →
      fs "mix.exs" = none → get_package_version fs = none) := by
  refine ⟨fun fs t h1 => ?_, fun fs t h1 h2 => ?_, fun fs t h1 h2 h3 => ?_,
    fun fs t h1 h2 h3 h4 => ?_, fun fs t h1 h2 h3 h4 h5 => ?_,
    fun fs t h1 h2 h3 h4 h5 h6 => ?_, fun fs t h1 h2 h3 h4 h5 h6 h7 => ?_,
    fun fs t1 t2 ver h1 hc h2 hv => ?_,
    fun fs h1 h2 h3 h4 h5 h6 h7 => ?_⟩
  · unfold get_package_version; rw [h1]
  · unfold get_package_version; rw [h1, h2]
  · unfold get_package_version; rw [h1, h2, h3]
  · unfold get_package_version; rw [h1, h2, h3, h4]
  · unfold get_package_version; rw [h1, h2, h3, h4, h5]
  · unfold get_package_version; rw [h1, h2, h3, h4, h5, h6]
  · unfold get_package_version; rw [h1, h2, h3, h4, h5, h6, h7]
  · unfold get_package_version; rw [h1]; exact hc
  · unfold get_package_version; rw [h1, h2, h3, h4, h5, h6, h7]

/-- A Node manifest with a valid version field. -/
def packageWithVersionJson : String :=
  "\x7b\"name\": \"spacefish\", \"version\": \"0.1.0\"\x7d"

/-- A directory holding a versionless Cargo manifest and a versioned Node
manifest. -/
def cargoPackageFs : FS := fun n =>
  if n = "Cargo.toml" then some cargoNoVersionText
  else if n = "package.json" then some packageWithVersionJson
  else none

/-- Witness for C1: the precedence scenario resolves to `none`, and so does
the empty directory. -/
theorem get_package_version_first_readable_witness :
    get_package_version cargoPackageFs = none ∧
    get_package_version (fun _ => none) = none :=
  ⟨get_package_version_first_readable.2.2.2.2.2.2.2.1 cargoPackageFs
      cargoNoVersionText packageWithVersionJson "v0.1.0" rfl rfl rfl rfl,
    get_package_version_first_readable.2.2.2.2.2.2.2.2 (fun _ => none)
      rfl rfl rfl rfl rfl rfl rfl⟩

end Package
